import Mathlib

/-!
Verification development for the claude-cortex memory engine.

This file gives a shallow embedding of the memory store
(`src/memory/store.ts`), the knowledge-graph resolver
(`resolveEntity` / `mergeEntities`), the remember tool
(`executeRemember`) and the control state, and proves or refutes the
frozen claims about them.

Modelling conventions:
* JavaScript numbers are modelled as `ℚ` (exact rational arithmetic);
  all score formulas in the source are sums, products and divisions of
  small constants, so no floating-point-specific behaviour is involved.
* Timestamps are modelled as natural numbers counting whole hours
  (the decay formulas of the spec use hours since last access).
* The SQLite table of memories is modelled as a list of rows kept in
  insertion (id-ascending) order; `SELECT ... WHERE id = ?` with a unique
  id is `List.find?`.  SQLite's `ORDER BY` is modelled as a stable sort
  (ties keep the underlying table order).  JavaScript's `Array.sort` is
  stable (ES2019), and is modelled by the same stable sort.
* The FTS5 index is external to the repository; it is modelled as an
  oracle `rank : Nat → Option ℚ` giving, for the query at hand, the
  bm25 rank of each matching row id (`none` = row does not match).
* Code of the repository that is not under src/ (salience.ts, decay.ts,
  types.ts, the pause guards) is modelled from the spec; each such
  definition carries a doc comment starting `Modelled from the spec:`.
-/

attribute [local semireducible] Rat.mul Rat.add Rat.inv Rat.sub

/-- Memory type: one of short_term, long_term, episodic (store schema). -/
inductive MemType where
  | shortTerm
  | longTerm
  | episodic
deriving DecidableEq, Repr

/-- A row of the `memories` table, as read by `rowToMemory` in
`src/memory/store.ts`.  `metadata` is an opaque JSON string. -/
structure Memory where
  id : Nat
  mtype : MemType
  category : String
  title : String
  content : String
  project : Option String
  tags : List String
  salience : ℚ
  accessCount : Nat
  lastAccessed : Nat
  createdAt : Nat
  metadata : String
deriving DecidableEq, Repr

/-- The memories table: rows in insertion order plus the next rowid. -/
structure Store where
  rows : List Memory
  nextId : Nat
deriving DecidableEq, Repr

/-- Modelled from the spec: `MemoryConfig` lives in `memory/types.ts`,
which is not under src/.  §4.3 gives the decay floor default 0.1 and
§4.4 the consolidation threshold default 0.7. -/
structure MemoryConfig where
  consolidationThreshold : ℚ
  salienceThreshold : ℚ
deriving DecidableEq, Repr

/-- Modelled from the spec: default configuration (floor 0.1,
consolidation threshold 0.7). -/
def DEFAULT_CONFIG : MemoryConfig :=
  { consolidationThreshold := 7/10, salienceThreshold := 1/10 }

/-- Anti-bloat: maximum content size per memory (10KB), from store.ts. -/
def MAX_CONTENT_SIZE : Nat := 10 * 1024

/-- The truncation marker appended by `truncateContent`. -/
def truncationMarker : String := "\n\n[Content truncated - exceeded 10KB limit]"

/-- Source function `truncateContent` from store.ts: truncate content if it exceeds the
maximum size, appending a visible marker. -/
def truncateContent (content : String) : String :=
  if content.length > MAX_CONTENT_SIZE then
    (String.mk (content.data.take MAX_CONTENT_SIZE)) ++ truncationMarker
  else
    content

/-- Input to `addMemory` (`MemoryInput` in memory/types.ts, whose shape
is determined by its uses in store.ts: optional salience, category,
type, project, tags, metadata). -/
structure MemoryInput where
  title : String
  content : String
  mtype : Option MemType
  category : Option String
  project : Option String
  tags : Option (List String)
  salience : Option ℚ
  metadata : Option String
deriving DecidableEq, Repr

/-- Case-insensitive view of a string (models SQLite `LOWER` and
JavaScript `toLowerCase`; both agree on the ASCII range used here). -/
def lowerStr (s : String) : String :=
  String.mk (s.data.map Char.toLower)

/-- Character-list prefix test (helper for `containsSub`). -/
def charPref : List Char → List Char → Bool
  | [], _ => true
  | _ :: _, [] => false
  | c :: cs, d :: ds => c == d && charPref cs ds

/-- Character-list infix test (helper for `containsSub`). -/
def containsChars (needle : List Char) : List Char → Bool
  | [] => charPref needle []
  | d :: ds => charPref needle (d :: ds) || containsChars needle ds

/-- Substring occurrence test used by the modelled keyword scorers. -/
def containsSub (haystack needle : String) : Bool :=
  containsChars needle.data haystack.data

/-- Modelled from the spec: `calculateSalience` lives in
memory/salience.ts, which is not under src/.  §4.3: static salience in
[0.2, 1.0] computed from keyword dictionaries over title+content, each
matched dictionary contributing an additive weight, clamped.  We model
a minimal dictionary with a base weight of 0.2. -/
def salienceKeywords : List (String × ℚ) :=
  [("error", 1/5), ("architecture", 1/5), ("decision", 3/20),
   ("always", 1/10), ("never", 1/10), ("pattern", 1/10)]

/-- Modelled from the spec: static salience scorer (see
`salienceKeywords`). -/
def calculateSalience (input : MemoryInput) : ℚ :=
  let text := lowerStr (input.title ++ " " ++ input.content)
  let raw := 1/5 + ((salienceKeywords.filter
      (fun kw => containsSub text kw.1)).map (fun kw => kw.2)).sum
  min 1 raw

/-- Modelled from the spec: `suggestCategory` (salience.ts, not under
src/) suggests a category from keyword matches; defaults to `note`. -/
def suggestCategory (input : MemoryInput) : String :=
  let text := lowerStr (input.title ++ " " ++ input.content)
  if containsSub text "error" then "error"
  else if containsSub text "architecture" then "architecture"
  else "note"

/-- Modelled from the spec: `extractTags` (salience.ts, not under
src/); we model it as returning the caller-provided tags. -/
def extractTags (input : MemoryInput) : List String :=
  input.tags.getD []

/-- Modelled from the spec: hourly decay rate per memory type
(§4.3: short_term 0.995, episodic 0.998, long_term 0.9995). -/
def decayRate : MemType → ℚ
  | .shortTerm => 995/1000
  | .episodic => 998/1000
  | .longTerm => 9995/10000

/-- Modelled from the spec: `calculateDecayedScore` (memory/decay.ts,
not under src/).  §4.3: `decayed(t) = salience × r^Δh` with `Δh` the
hours since `lastAccessed`. -/
def calculateDecayedScore (m : Memory) (now : Nat) : ℚ :=
  m.salience * (decayRate m.mtype) ^ (now - m.lastAccessed)

/-- Modelled from the spec: type weight used by the priority composite
(long-term memories weigh the most). -/
def typeWeight : MemType → ℚ
  | .longTerm => 1
  | .episodic => 7/10
  | .shortTerm => 1/2

/-- Modelled from the spec: bounded increasing surrogate for the
normalized access-count term `log1p(accessCount)/k` of the priority
formula (log1p is transcendental; `n/(n+1)` is the rational stand-in,
also in [0,1) and increasing). -/
def accessCountTerm (n : Nat) : ℚ := (n : ℚ) / ((n : ℚ) + 1)

/-- Modelled from the spec: `calculatePriority` (memory/decay.ts, not
under src/).  §4.3: `priority = 0.4·decayed + 0.3·salience +
0.2·log1p(accessCount)/k + 0.1·type_weight`. -/
def calculatePriority (m : Memory) (now : Nat) : ℚ :=
  2/5 * calculateDecayedScore m now + 3/10 * m.salience
    + 1/5 * accessCountTerm m.accessCount + 1/10 * typeWeight m.mtype

/-- Modelled from the spec: base reinforcement boost per type (§4.3:
boost is larger for STM than LTM). -/
def reinforcementBase : MemType → ℚ
  | .shortTerm => 1/10
  | .episodic => 3/40
  | .longTerm => 1/20

/-- Modelled from the spec: `calculateReinforcementBoost` (memory/decay.ts,
not under src/) returns the new salience after an access.  §4.3:
`new salience = min(1, salience + boost(type, accessCount))`, the boost
shrinking with access count. -/
def calculateReinforcementBoost (m : Memory) : ℚ :=
  min 1 (m.salience + reinforcementBase m.mtype / ((m.accessCount : ℚ) + 1))

/-- Events published to the in-process bus (`api/events.ts` emitters
used by store.ts). -/
inductive MemoryEvent where
  | created (m : Memory)
  | accessed (m : Memory) (newSalience : ℚ)
  | updated (m : Memory)
  | deleted (id : Nat) (title : String)
deriving DecidableEq, Repr

/-- Source function `getMemoryById` from store.ts: `SELECT * FROM memories WHERE id = ?`. -/
def getMemoryById (s : Store) (id : Nat) : Option Memory :=
  s.rows.find? (fun m => m.id = id)

/-- Source function `addMemory` from store.ts: compute salience/category/tags/type, insert
the (truncated) row, and emit `memory_created`.  Returns the new store,
the stored memory and the emitted events.  `now` models
`CURRENT_TIMESTAMP` filling the `last_accessed`/`created_at` defaults. -/
def addMemory (s : Store) (input : MemoryInput) (now : Nat)
    (config : MemoryConfig) : Store × Memory × List MemoryEvent :=
  let salience := input.salience.getD (calculateSalience input)
  let category := input.category.getD (suggestCategory input)
  let tags := extractTags input
  let mtype := input.mtype.getD
    (if salience ≥ config.consolidationThreshold then .longTerm else .shortTerm)
  let memory : Memory :=
    { id := s.nextId
      mtype := mtype
      category := category
      title := input.title
      content := truncateContent input.content
      project := input.project
      tags := tags
      salience := salience
      accessCount := 0
      lastAccessed := now
      createdAt := now
      metadata := input.metadata.getD "" }
  ({ rows := s.rows ++ [memory], nextId := s.nextId + 1 },
   memory, [MemoryEvent.created memory])

/-- A patch for `updateMemory` (`Partial<MemoryInput>`): an undefined
field is `none`. -/
structure MemoryPatch where
  title : Option String
  content : Option String
  mtype : Option MemType
  category : Option String
  project : Option String
  tags : Option (List String)
  salience : Option ℚ
  metadata : Option String
deriving DecidableEq, Repr

/-- The all-`none` patch. -/
def MemoryPatch.empty : MemoryPatch :=
  ⟨none, none, none, none, none, none, none, none⟩

/-- True when at least one updatable field is defined — mirrors the
`fields` list built by `updateMemory` being non-empty. -/
def MemoryPatch.hasField (p : MemoryPatch) : Bool :=
  p.title.isSome || p.content.isSome || p.mtype.isSome || p.category.isSome
    || p.project.isSome || p.tags.isSome || p.salience.isSome || p.metadata.isSome

/-- Apply the defined fields of a patch to a row (the generated
`UPDATE memories SET ...` statement). -/
def applyPatch (p : MemoryPatch) (m : Memory) : Memory :=
  { m with
    title := p.title.getD m.title
    content := p.content.getD m.content
    mtype := p.mtype.getD m.mtype
    category := p.category.getD m.category
    project := match p.project with | some pr => some pr | none => m.project
    tags := p.tags.getD m.tags
    salience := p.salience.getD m.salience
    metadata := p.metadata.getD m.metadata }

/-- Source function `updateMemory` from store.ts: returns `null` for a missing id;
returns the row unchanged (no write, no event) when no field of the
patch is defined; otherwise updates exactly the defined fields and
emits `memory_updated`.  Note the source never touches `last_accessed`
here. -/
def updateMemory (s : Store) (id : Nat) (p : MemoryPatch) :
    Store × Option Memory × List MemoryEvent :=
  match getMemoryById s id with
  | none => (s, none, [])
  | some existing =>
    if p.hasField then
      let updated := applyPatch p existing
      let s' : Store :=
        { s with rows := s.rows.map (fun r => if r.id = id then applyPatch p r else r) }
      (s', some updated, [MemoryEvent.updated updated])
    else
      (s, some existing, [])

/-- Source function `accessMemory` from store.ts: for an existing row, bump
`access_count`, set `last_accessed = CURRENT_TIMESTAMP`, store the
reinforced salience, and emit `memory_accessed`; `null` and no change
for a missing id. -/
def accessMemory (s : Store) (id : Nat) (now : Nat) :
    Store × Option Memory × List MemoryEvent :=
  match getMemoryById s id with
  | none => (s, none, [])
  | some memory =>
    let newSalience := calculateReinforcementBoost memory
    let upd := fun (r : Memory) =>
      if r.id = id then
        { r with accessCount := r.accessCount + 1, lastAccessed := now,
                 salience := newSalience }
      else r
    let updated := upd memory
    ({ s with rows := s.rows.map upd }, some updated,
     [MemoryEvent.accessed updated newSalience])

/-- Stable insertion used by `stableSortBy`: `x` is placed before the
first element it strictly precedes, hence after all its ties. -/
def insertBy (lt : α → α → Bool) (x : α) : List α → List α
  | [] => [x]
  | y :: ys => if lt x y then x :: y :: ys else y :: insertBy lt x ys

/-- Stable sort by a strict comparator (used to model both SQLite
`ORDER BY` with its deterministic-in-practice tie order and JavaScript's
stable `Array.sort`). -/
def stableSortBy (lt : α → α → Bool) (l : List α) : List α :=
  l.foldl (fun acc x => insertBy lt x acc) []

/-- Search options `SearchOptions` from memory/types.ts as used by `searchMemories`. -/
structure SearchOptions where
  query : Option String
  project : Option String
  category : Option String
  mtype : Option MemType
  minSalience : Option ℚ
  tags : Option (List String)
  includeDecayed : Bool
  limit : Option Nat
deriving DecidableEq, Repr

/-- JavaScript truthiness of an optional string (the source guards the
project/category filters with `if (options.project)` etc., so an empty
string disables the filter like `undefined` does). -/
def truthyStr : Option String → Option String
  | some "" => none
  | o => o

/-- JavaScript truthiness of an optional rational (`if (options.minSalience)`
skips the filter when the value is 0). -/
def truthyQ : Option ℚ → Option ℚ
  | some q => if q = 0 then none else some q
  | none => none

/-- Limit default `options.limit || 20` (a limit of 0 is falsy and becomes 20). -/
def effectiveLimit : Option Nat → Nat
  | some l => if l = 0 then 20 else l
  | none => 20

/-- Whitespace trim of both ends (JavaScript `String.prototype.trim`). -/
def trimStr (s : String) : String :=
  String.mk (((s.data.dropWhile Char.isWhitespace).reverse.dropWhile
    Char.isWhitespace).reverse)

/-- Query guard `options.query && options.query.trim()`: the FTS branch is taken
only for a query that is non-empty after trimming. -/
def SearchOptions.hasQuery (o : SearchOptions) : Bool :=
  match o.query with
  | some q => q ≠ "" && trimStr q ≠ ""
  | none => false

/-- The WHERE filters of `searchMemories` (project, category, type,
min-salience, tag any-match; the tag LIKE '%"tag"%' test over the JSON
array is modelled as list membership). -/
def matchesFilters (o : SearchOptions) (m : Memory) : Bool :=
  (match truthyStr o.project with
   | some p => m.project == some p
   | none => true) &&
  (match truthyStr o.category with
   | some c => m.category == c
   | none => true) &&
  (match o.mtype with
   | some t => m.mtype == t
   | none => true) &&
  (match truthyQ o.minSalience with
   | some ms => decide (ms ≤ m.salience)
   | none => true) &&
  (match o.tags with
   | some ts => if ts.length > 0 then ts.any (fun t => m.tags.contains t) else true
   | none => true)

/-- A candidate row together with its FTS rank (`SELECT m.*, fts.rank`;
the no-query branch selects `0 as rank`). -/
structure Candidate where
  memory : Memory
  rank : ℚ
deriving DecidableEq, Repr

/-- Candidate rows: in the FTS branch, the rows matched by the rank
oracle with their rank; otherwise every row with rank 0. -/
def baseCandidates (rank : Nat → Option ℚ) (s : Store) (o : SearchOptions) :
    List Candidate :=
  if o.hasQuery then
    (s.rows.filter (fun m => (rank m.id).isSome)).map
      (fun m => { memory := m, rank := (rank m.id).getD 0 })
  else
    s.rows.map (fun m => { memory := m, rank := 0 })

/-- The SQL `ORDER BY m.salience DESC, m.last_accessed DESC` comparator
(strict: true when `a` must come strictly before `b`). -/
def sqlLt (a b : Candidate) : Bool :=
  decide (b.memory.salience < a.memory.salience) ||
    (decide (a.memory.salience = b.memory.salience) &&
      decide (b.memory.lastAccessed < a.memory.lastAccessed))

/-- A search result: the row, the rank it was fetched with, the
computed decayed score (the source writes it into `memory.decayedScore`)
and the fused relevance score. -/
structure SearchResult where
  memory : Memory
  ftsRank : ℚ
  decayedScore : ℚ
  relevanceScore : ℚ
deriving DecidableEq, Repr

/-- Source expression `row.rank ? Math.abs(row.rank) / 100 : 0.5` — note the value is not
clamped to [0,1], and a rank of exactly 0 is falsy. -/
def ftsScore (rank : ℚ) : ℚ :=
  if rank = 0 then 1/2 else |rank| / 100

/-- Score fusion of `searchMemories`:
`ftsScore * 0.4 + decayedScore * 0.4 + calculatePriority(memory) * 0.2`. -/
def mkSearchResult (now : Nat) (c : Candidate) : SearchResult :=
  let decayed := calculateDecayedScore c.memory now
  { memory := c.memory
    ftsRank := c.rank
    decayedScore := decayed
    relevanceScore :=
      ftsScore c.rank * (2/5) + decayed * (2/5) + calculatePriority c.memory now * (1/5) }

/-- The final `sort((a, b) => b.relevanceScore - a.relevanceScore)`
comparator (strict, descending by relevance). -/
def relLt (a b : SearchResult) : Bool :=
  decide (b.relevanceScore < a.relevanceScore)

/-- Source function `searchMemories` from store.ts: FTS/filter candidate selection,
`ORDER BY salience DESC, last_accessed DESC LIMIT ?` in SQL, then score
fusion, the decay post-filter, and a stable sort by relevance. -/
def searchMemories (rank : Nat → Option ℚ) (s : Store) (o : SearchOptions)
    (now : Nat) (config : MemoryConfig) : List SearchResult :=
  stableSortBy relLt
    ((((stableSortBy sqlLt
          ((baseCandidates rank s o).filter
            (fun c => matchesFilters o c.memory))).take
        (effectiveLimit o.limit)).map (mkSearchResult now)).filter
      (fun r => o.includeDecayed || decide (config.salienceThreshold ≤ r.decayedScore)))

/-- Importance levels of the remember tool. -/
inductive Importance where
  | low
  | normal
  | high
  | critical
deriving DecidableEq, Repr

/-- Importance map `importanceMap` of `executeRemember`. -/
def importanceSalience : Importance → ℚ
  | .low => 3/10
  | .normal => 1/2
  | .high => 4/5
  | .critical => 1

/-- Input of the remember tool (`rememberSchema`). -/
structure RememberInput where
  title : String
  content : String
  category : Option String
  mtype : Option MemType
  project : Option String
  tags : Option (List String)
  importance : Option Importance
deriving DecidableEq, Repr

/-- The duplicate-check search issued by `executeRemember`:
`searchMemories({ query: input.title, project: input.project, limit: 3 })`. -/
def rememberSearchOptions (inp : RememberInput) : SearchOptions :=
  { query := some inp.title
    project := inp.project
    category := none
    mtype := none
    minSalience := none
    tags := none
    includeDecayed := false
    limit := some 3 }

/-- Outcome of the remember tool: the id reported to the caller and
whether it reused an existing similar memory. -/
structure RememberOutcome where
  id : Nat
  deduped : Bool
deriving DecidableEq, Repr

/-- Input record `MemoryInput` that `executeRemember` passes to `addMemory`. -/
def rememberToInput (inp : RememberInput) (salienceOverride : Option ℚ) : MemoryInput :=
  { title := inp.title
    content := inp.content
    mtype := inp.mtype
    category := inp.category
    project := inp.project
    tags := inp.tags
    salience := salienceOverride
    metadata := none }

/-- Source function `executeRemember` from the remember tool: maps `importance` to a
salience override, searches for near-duplicates by title+project, and
either returns the existing top hit (when its relevance exceeds 0.9)
without touching the store, or inserts via `addMemory`. -/
def executeRemember (rank : Nat → Option ℚ) (s : Store) (inp : RememberInput)
    (now : Nat) : Store × RememberOutcome × List MemoryEvent :=
  let salienceOverride := inp.importance.map importanceSalience
  let existing := searchMemories rank s (rememberSearchOptions inp) now DEFAULT_CONFIG
  let doInsert : Unit → Store × RememberOutcome × List MemoryEvent := fun _ =>
    let out := addMemory s (rememberToInput inp salienceOverride) now DEFAULT_CONFIG
    (out.1, { id := out.2.1.id, deduped := false }, out.2.2)
  match existing with
  | r :: _ =>
    if r.relevanceScore > 9/10 then
      (s, { id := r.memory.id, deduped := true }, [])
    else doInsert ()
  | [] => doInsert ()

/-- Control state from the control module: the global pause flag. -/
structure ControlState where
  paused : Bool
deriving DecidableEq, Repr

/-- Source function `isPaused` from the control module. -/
def isPaused (c : ControlState) : Bool :=
  c.paused

/-- Source function `pause` from the control module. -/
def pause (c : ControlState) : ControlState :=
  { c with paused := true }

/-- Source function `resume` from the control module. -/
def resume (c : ControlState) : ControlState :=
  { c with paused := false }

/-- Modelled from the spec: `consolidate()` lives in
memory/consolidate.ts, which is not under src/.  §4.7: promote STM rows
with `salience ≥ threshold` to long_term, salience bumped by 0.1 capped
at 1.  Returns the new store and the number of promoted rows. -/
def consolidateModel (s : Store) (config : MemoryConfig) : Store × Nat :=
  let eligible := fun (m : Memory) =>
    m.mtype = MemType.shortTerm ∧ config.consolidationThreshold ≤ m.salience
  let promote := fun (m : Memory) =>
    if eligible m then
      { m with mtype := MemType.longTerm, salience := min 1 (m.salience + 1/10) }
    else m
  ({ s with rows := s.rows.map promote },
   (s.rows.filter (fun m => decide (eligible m))).length)

/-- Modelled from the spec: the tool/API entry wrapper around `add()`.
The control module defining the pause flag is in src-adjacent code, but
no caller of `isPaused` is under src/; §4.9 says that while paused,
`add()` returns a recognizable "paused" error without touching the
store.  The wrapper consults `isPaused` before delegating to
`addMemory`. -/
def addGuarded (c : ControlState) (s : Store) (input : MemoryInput) (now : Nat) :
    Store × Except String Memory × List MemoryEvent :=
  if isPaused c then
    (s, Except.error "paused", [])
  else
    let out := addMemory s input now DEFAULT_CONFIG
    (out.1, Except.ok out.2.1, out.2.2)

/-- Modelled from the spec: the entry wrapper around `consolidate()`
(§4.9: while paused it returns a "paused" error without touching the
store). -/
def consolidateGuarded (c : ControlState) (s : Store) :
    Store × Except String Nat × List MemoryEvent :=
  if isPaused c then
    (s, Except.error "paused", [])
  else
    let out := consolidateModel s DEFAULT_CONFIG
    (out.1, Except.ok out.2, [])

/-- One cell chain of the Levenshtein dynamic program: given the
remaining characters of `b`, the previous row (aligned so that its head
is `prev[j-1]`) and the value to the left (`curr[j-1]`), produce the
rest of the current row.  This is the inner `for j` loop of
`levenshtein` in the resolver source. -/
def levRowAux (x : Char) : List Char → List Nat → Nat → List Nat
  | c :: bs, pjm1 :: prest, left =>
    let pj := prest.headD 0
    let cost := if x == c then 0 else 1
    let curr := Nat.min (pj + 1) (Nat.min (left + 1) (pjm1 + cost))
    curr :: levRowAux x bs prest curr
  | _, _, _ => []

/-- Source function `levenshtein` from the resolver source: the two-row dynamic program
(`prev` initialised to `0..n`, each row starting with its index `i`). -/
def levenshteinDist (a b : String) : Nat :=
  let bc := b.data
  let initRow := List.range (bc.length + 1)
  let final := a.data.foldl
    (fun (st : Nat × List Nat) x => (st.1 + 1, st.1 :: levRowAux x bc st.2 st.1))
    (1, initRow)
  final.2.getLastD 0

/-- A row of the `entities` table (`(id, name, type, aliases[],
memory_count)`; a NULL aliases column is the empty list). -/
structure Entity where
  id : Nat
  name : String
  etype : String
  aliases : List String
  memoryCount : Nat
deriving DecidableEq, Repr

/-- A row of the `triples` table; the spec makes the full tuple the
unique key. -/
structure Triple where
  subjectId : Nat
  predicate : String
  objectId : Nat
  sourceMemoryId : Nat
deriving DecidableEq, Repr

/-- A row of the `memory_entities` junction table. -/
structure MemoryEntity where
  memoryId : Nat
  entityId : Nat
  role : String
deriving DecidableEq, Repr

/-- The knowledge-graph tables, rows in insertion order. -/
structure GraphState where
  entities : List Entity
  triples : List Triple
  mentions : List MemoryEntity
  nextEntityId : Nat
deriving DecidableEq, Repr

/-- The alias-append of resolver steps 3 and 4: add the incoming casing
to the entity's aliases unless already present. -/
def addAliasIfAbsent (g : GraphState) (eid : Nat) (name : String) : GraphState :=
  { g with entities := g.entities.map (fun e =>
      if e.id = eid then
        if e.aliases.contains name then e
        else { e with aliases := e.aliases ++ [name] }
      else e) }

/-- Insert statement `INSERT INTO entities (name, type) VALUES (?, ?)` and return the
fresh rowid (resolver step 5). -/
def insertEntity (g : GraphState) (name ty : String) : GraphState × Nat :=
  ({ g with
      entities := g.entities ++
        [{ id := g.nextEntityId, name := name, etype := ty, aliases := [], memoryCount := 0 }]
      nextEntityId := g.nextEntityId + 1 },
   g.nextEntityId)

/-- The `LENGTH(name) BETWEEN ? - 2 AND ? + 2` candidate bound of the
fuzzy step, as the source issues it. -/
def fuzzyLenOk (nameLen : Nat) (e : Entity) : Bool :=
  decide (nameLen - 2 ≤ e.name.length) && decide (e.name.length ≤ nameLen + 2)

/-- Source function `resolveEntity` from the resolver source: exact match,
case-insensitive match, alias match (appending the incoming casing),
fuzzy Levenshtein match for names longer than 5 characters (appending
the name as alias), and finally a fresh insert. -/
def resolveEntity (g : GraphState) (name ty : String) : GraphState × Nat :=
  match g.entities.find? (fun e => e.name == name && e.etype == ty) with
  | some e => (g, e.id)
  | none =>
  match g.entities.find? (fun e => lowerStr e.name == lowerStr name && e.etype == ty) with
  | some e => (g, e.id)
  | none =>
  match (g.entities.filter (fun e => e.etype == ty)).find?
      (fun e => e.aliases.any (fun a => lowerStr a == lowerStr name)) with
  | some e => (addAliasIfAbsent g e.id name, e.id)
  | none =>
  if name.length > 5 then
    match (g.entities.filter (fun e => e.etype == ty && fuzzyLenOk name.length e)).find?
        (fun e => decide (levenshteinDist (lowerStr name) (lowerStr e.name) ≤ 2)) with
    | some e => (addAliasIfAbsent g e.id name, e.id)
    | none => insertEntity g name ty
  else insertEntity g name ty

/-- The resolver's entity matching as claim C8 words it: try the steps
in order and stop at the first hit — (1) exact `(name, type)` match,
(2) case-insensitive name match among the type, (3) alias match over
the stored alias sets appending the incoming casing on hit, (4) only
for names longer than 5 characters a fuzzy match accepting a same-type
candidate whose name length is within ±2 of the input's and whose
case-insensitive Levenshtein distance is at most 2, appending the input
name as an alias on hit, (5) otherwise insert a new entity and return
its fresh id. -/
def resolveEntitySpec (g : GraphState) (name ty : String) : GraphState × Nat :=
  match g.entities.find? (fun e => e.name == name && e.etype == ty) with
  | some e => (g, e.id)
  | none =>
  match g.entities.find? (fun e => lowerStr e.name == lowerStr name && e.etype == ty) with
  | some e => (g, e.id)
  | none =>
  match g.entities.find? (fun e => e.etype == ty &&
      e.aliases.any (fun a => lowerStr a == lowerStr name)) with
  | some e => (addAliasIfAbsent g e.id name, e.id)
  | none =>
  if name.length > 5 then
    match g.entities.find? (fun e => e.etype == ty &&
        (decide (e.name.length ≤ name.length + 2) &&
         decide (name.length ≤ e.name.length + 2)) &&
        decide (levenshteinDist (lowerStr name) (lowerStr e.name) ≤ 2)) with
    | some e => (addAliasIfAbsent g e.id name, e.id)
    | none => insertEntity g name ty
  else insertEntity g name ty

/-- Row-by-row `UPDATE OR IGNORE` semantics: each row satisfying `hit`
is replaced by `upd` unless the replacement would collide with another
row currently in the table (then the row is left as is).  `done` is the
already-processed prefix. -/
def orIgnorePass [DecidableEq α] (hit : α → Bool) (upd : α → α) :
    List α → List α → List α
  | done, [] => done
  | done, t :: rest =>
    if hit t then
      let t' := upd t
      if t' ∈ done ∨ t' ∈ rest then orIgnorePass hit upd (done ++ [t]) rest
      else orIgnorePass hit upd (done ++ [t']) rest
    else orIgnorePass hit upd (done ++ [t]) rest

/-- Rewire an id occurrence from the removed entity to the kept one. -/
def rewireId (keepId removeId x : Nat) : Nat :=
  if x = removeId then keepId else x

/-- Full rewiring of a triple (both endpoints). -/
def rewireTriple (keepId removeId : Nat) (t : Triple) : Triple :=
  { t with subjectId := rewireId keepId removeId t.subjectId
           objectId := rewireId keepId removeId t.objectId }

/-- Full rewiring of a mention. -/
def rewireMention (keepId removeId : Nat) (mn : MemoryEntity) : MemoryEntity :=
  { mn with entityId := rewireId keepId removeId mn.entityId }

/-- Deduplicate keeping first occurrences (JS `new Set` iterates in
insertion order of first occurrences). -/
def dedupFirst (seen : List String) : List String → List String
  | [] => []
  | x :: xs => if x ∈ seen then dedupFirst seen xs else x :: dedupFirst (x :: seen) xs

/-- Source function `mergeEntities` from the resolver source, as one transaction:
`UPDATE OR IGNORE` the triples' subject then object columns and the
mentions' entity column from `removeId` to `keepId`, delete the rows
still referring to `removeId`, union the aliases (adding the removed
entity's primary name, dropping the kept entity's own name), sum the
memory counts, and delete the removed entity.  When either entity row
is missing the transaction fails (the source dereferences the missing
row) and rolls back, modelled as `none`. -/
def mergeEntities (keepId removeId : Nat) (g : GraphState) : Option GraphState :=
  match g.entities.find? (fun e => e.id == keepId),
        g.entities.find? (fun e => e.id == removeId) with
  | some keepRow, some removeRow =>
    let triples1 := orIgnorePass (fun t => t.subjectId == removeId)
      (fun t => { t with subjectId := keepId }) [] g.triples
    let triples2 := orIgnorePass (fun t => t.objectId == removeId)
      (fun t => { t with objectId := keepId }) [] triples1
    let triples3 := triples2.filter
      (fun t => !(t.subjectId == removeId || t.objectId == removeId))
    let mentions1 := orIgnorePass (fun mn => mn.entityId == removeId)
      (fun mn => { mn with entityId := keepId }) [] g.mentions
    let mentions2 := mentions1.filter (fun mn => !(mn.entityId == removeId))
    let mergedAliases := (dedupFirst []
        (keepRow.aliases ++ removeRow.aliases ++ [removeRow.name])).filter
      (fun a => !(a == keepRow.name))
    let entities' := (g.entities.filter (fun e => !(e.id == removeId))).map
      (fun e =>
        if e.id = keepId then
          { e with aliases := mergedAliases
                   memoryCount := keepRow.memoryCount + removeRow.memoryCount }
        else e)
    some { entities := entities', triples := triples3, mentions := mentions2,
           nextEntityId := g.nextEntityId }
  | _, _ => none

/-- The state after attempting a merge: on a failed (rolled-back)
transaction the state is unchanged. -/
def runMerge (keepId removeId : Nat) (g : GraphState) : GraphState :=
  (mergeEntities keepId removeId g).getD g

/-- Strict-order-with-ties relation produced by a stable sort: adjacent
elements are either strictly ordered by the comparator or are ties that
kept their pre-sort relative order `R`. -/
def ltTieOrd (lt : α → α → Bool) (R : α → α → Prop) (a b : α) : Prop :=
  lt a b = true ∨ (lt b a = false ∧ R a b)

theorem mem_insertBy {lt : α → α → Bool} {x a : α} {l : List α} :
    a ∈ insertBy lt x l ↔ a = x ∨ a ∈ l := by
  induction l with
  | nil => simp [insertBy]
  | cons y ys ih =>
    simp only [insertBy]
    by_cases h : lt x y
    · rw [if_pos h]; simp
    · rw [if_neg h]
      simp only [List.mem_cons, ih]
      tauto

theorem mem_stableSortBy_aux {lt : α → α → Bool} {a : α} :
    ∀ (l acc : List α),
      (a ∈ l.foldl (fun acc x => insertBy lt x acc) acc ↔ a ∈ acc ∨ a ∈ l) := by
  intro l
  induction l with
  | nil => intro acc; simp
  | cons x xs ih =>
    intro acc
    simp only [List.foldl_cons, ih, mem_insertBy, List.mem_cons]
    tauto

theorem mem_stableSortBy {lt : α → α → Bool} {a : α} {l : List α} :
    a ∈ stableSortBy lt l ↔ a ∈ l := by
  simp [stableSortBy, mem_stableSortBy_aux]

theorem pairwise_insertBy {lt : α → α → Bool} {R : α → α → Prop} {x : α} {l : List α}
    (hasymm : ∀ a b, lt a b = true → lt b a = false)
    (htrans : ∀ a b c, lt a b = true → lt c b = false → lt a c = true)
    (hl : l.Pairwise (ltTieOrd lt R))
    (hx : ∀ a ∈ l, R a x) :
    (insertBy lt x l).Pairwise (ltTieOrd lt R) := by
  induction l with
  | nil => simp [insertBy]
  | cons y ys ih =>
    simp only [insertBy]
    rcases List.pairwise_cons.mp hl with ⟨hy, hys⟩
    by_cases h : lt x y
    · simp only [h, if_true]
      refine List.pairwise_cons.mpr ⟨?_, hl⟩
      intro b hb
      rcases List.mem_cons.mp hb with hb | hb
      · exact Or.inl (hb ▸ h)
      · have hyb := hy b hb
        rcases hyb with hyb | hyb
        · exact Or.inl (htrans x y b h (hasymm y b hyb))
        · exact Or.inl (htrans x y b h hyb.1)
    · simp only [h, if_false]
      refine List.pairwise_cons.mpr ⟨?_, ?_⟩
      · intro b hb
        rcases mem_insertBy.mp hb with hb | hb
        · subst hb
          refine Or.inr ⟨?_, hx y (List.mem_cons_self y ys)⟩
          simpa using h
        · exact hy b hb
      · exact ih hys (fun a ha => hx a (List.mem_cons_of_mem y ha))

theorem pairwise_stableSortBy_aux {lt : α → α → Bool} {R : α → α → Prop}
    (hasymm : ∀ a b, lt a b = true → lt b a = false)
    (htrans : ∀ a b c, lt a b = true → lt c b = false → lt a c = true) :
    ∀ (l acc : List α), acc.Pairwise (ltTieOrd lt R) →
      (∀ a ∈ acc, ∀ b ∈ l, R a b) → l.Pairwise R →
      (l.foldl (fun acc x => insertBy lt x acc) acc).Pairwise (ltTieOrd lt R) := by
  intro l
  induction l with
  | nil => intro acc hacc _ _; simpa using hacc
  | cons x xs ih =>
    intro acc hacc hcross hl
    rcases List.pairwise_cons.mp hl with ⟨hx, hxs⟩
    simp only [List.foldl_cons]
    refine ih (insertBy lt x acc) ?_ ?_ hxs
    · exact pairwise_insertBy hasymm htrans hacc
        (fun a ha => hcross a ha x (List.mem_cons_self x xs))
    · intro a ha b hb
      rcases mem_insertBy.mp ha with ha | ha
      · exact ha ▸ hx b hb
      · exact hcross a ha b (List.mem_cons_of_mem x hb)

theorem pairwise_stableSortBy {lt : α → α → Bool} {R : α → α → Prop} {l : List α}
    (hasymm : ∀ a b, lt a b = true → lt b a = false)
    (htrans : ∀ a b c, lt a b = true → lt c b = false → lt a c = true)
    (hl : l.Pairwise R) :
    (stableSortBy lt l).Pairwise (ltTieOrd lt R) := by
  exact pairwise_stableSortBy_aux hasymm htrans l [] (List.Pairwise.nil)
    (by intro a ha; cases ha) hl

theorem find?_filter_eq {p q : α → Bool} (l : List α) :
    (l.filter q).find? p = l.find? (fun x => q x && p x) := by
  induction l with
  | nil => rfl
  | cons x xs ih =>
    by_cases hq : q x
    · by_cases hp : p x
      · simp [List.filter_cons, hq, List.find?_cons, hp]
      · simp [List.filter_cons, hq, List.find?_cons, hp, ih]
    · simp [List.filter_cons, hq, List.find?_cons, ih]

theorem mem_orIgnorePass_of_done [DecidableEq α] {hit : α → Bool} {upd : α → α}
    {u : α} : ∀ {todo done : List α}, u ∈ done → u ∈ orIgnorePass hit upd done todo := by
  intro todo
  induction todo with
  | nil => intro done h; simpa [orIgnorePass] using h
  | cons t rest ih =>
    intro done h
    simp only [orIgnorePass]
    by_cases h1 : hit t
    · simp only [h1, if_true]
      by_cases h2 : upd t ∈ done ∨ upd t ∈ rest
      · simp only [h2, if_true]
        exact ih (List.mem_append_left _ h)
      · simp only [h2, if_false]
        exact ih (List.mem_append_left _ h)
    · simp only [h1, if_false]
      exact ih (List.mem_append_left _ h)

theorem mem_orIgnorePass_of_nothit [DecidableEq α] {hit : α → Bool} {upd : α → α}
    {u : α} : ∀ {todo done : List α}, u ∈ todo → hit u = false →
      u ∈ orIgnorePass hit upd done todo := by
  intro todo
  induction todo with
  | nil => intro done h _; cases h
  | cons t rest ih =>
    intro done h hu
    rcases List.mem_cons.mp h with h | h
    · subst h
      simp only [orIgnorePass, hu, if_false]
      exact mem_orIgnorePass_of_done (List.mem_append_right _ (List.mem_singleton.mpr rfl))
    · simp only [orIgnorePass]
      by_cases h1 : hit t
      · simp only [h1, if_true]
        by_cases h2 : upd t ∈ done ∨ upd t ∈ rest
        · simp only [h2, if_true]; exact ih h hu
        · simp only [h2, if_false]; exact ih h hu
      · simp only [h1, if_false]; exact ih h hu

theorem effUpd_mem_orIgnorePass [DecidableEq α] {hit : α → Bool} {upd : α → α}
    (hupd : ∀ x, hit (upd x) = false) {u : α} :
    ∀ {todo done : List α}, u ∈ todo →
      (if hit u then upd u else u) ∈ orIgnorePass hit upd done todo := by
  intro todo
  induction todo with
  | nil => intro done h; cases h
  | cons t rest ih =>
    intro done h
    rcases List.mem_cons.mp h with h | h
    · subst h
      by_cases h1 : hit u
      · simp only [orIgnorePass, h1, if_true]
        by_cases h2 : upd u ∈ done ∨ upd u ∈ rest
        · simp only [h2, if_true]
          rcases h2 with h2 | h2
          · exact mem_orIgnorePass_of_done (List.mem_append_left _ h2)
          · exact mem_orIgnorePass_of_nothit h2 (hupd u)
        · simp only [h2, if_false]
          exact mem_orIgnorePass_of_done
            (List.mem_append_right _ (List.mem_singleton.mpr rfl))
      · simp only [orIgnorePass, h1, if_false]
        exact mem_orIgnorePass_of_done
          (List.mem_append_right _ (List.mem_singleton.mpr rfl))
    · simp only [orIgnorePass]
      by_cases h1 : hit t
      · simp only [h1, if_true]
        by_cases h2 : upd t ∈ done ∨ upd t ∈ rest
        · simp only [h2, if_true]; exact ih h
        · simp only [h2, if_false]; exact ih h
      · simp only [h1, if_false]; exact ih h

theorem mem_dedupFirst {a : String} :
    ∀ {l seen : List String}, (a ∈ dedupFirst seen l ↔ a ∈ l ∧ a ∉ seen) := by
  intro l
  induction l with
  | nil => intro seen; simp [dedupFirst]
  | cons x xs ih =>
    intro seen
    simp only [dedupFirst]
    by_cases h : x ∈ seen
    · simp only [h, if_true, ih, List.mem_cons]
      constructor
      · rintro ⟨hx, hs⟩; exact ⟨Or.inr hx, hs⟩
      · rintro ⟨hx | hx, hs⟩
        · exact absurd (hx ▸ h) hs
        · exact ⟨hx, hs⟩
    · simp only [h, if_false, List.mem_cons, ih]
      constructor
      · rintro (rfl | ⟨hx, hs⟩)
        · exact ⟨Or.inl rfl, h⟩
        · exact ⟨Or.inr hx, fun hc => hs (Or.inr hc)⟩
      · rintro ⟨rfl | hx, hs⟩
        · exact Or.inl rfl
        · by_cases hax : a = x
          · exact Or.inl hax
          · exact Or.inr ⟨hx, fun hc => hc.elim hax hs⟩

theorem find?_map_pres {l : List α} {f : α → α} {p : α → Bool}
    (hpres : ∀ x, p (f x) = p x) :
    (l.map f).find? p = (l.find? p).map f := by
  induction l with
  | nil => rfl
  | cons x xs ih =>
    by_cases hp : p x
    · simp [List.find?_cons, hpres, hp]
    · simp [List.find?_cons, hpres, hp, ih]

theorem sqlLt_iff {a b : Candidate} :
    sqlLt a b = true ↔
      (b.memory.salience < a.memory.salience ∨
        (a.memory.salience = b.memory.salience ∧
          b.memory.lastAccessed < a.memory.lastAccessed)) := by
  simp [sqlLt, Bool.or_eq_true, Bool.and_eq_true, decide_eq_true_eq]

theorem sqlLt_asymm (a b : Candidate) (h : sqlLt a b = true) : sqlLt b a = false := by
  rw [Bool.eq_false_iff]
  intro hba
  rw [sqlLt_iff] at h hba
  rcases h with h | ⟨he, hl⟩ <;> rcases hba with hb | ⟨he2, hl2⟩
  · exact absurd hb (not_lt.mpr h.le)
  · exact absurd (he2 ▸ h) (lt_irrefl _)
  · exact absurd (he ▸ hb) (lt_irrefl _)
  · omega

theorem sqlLt_htrans (a b c : Candidate) (h1 : sqlLt a b = true)
    (h2 : sqlLt c b = false) : sqlLt a c = true := by
  rw [Bool.eq_false_iff] at h2
  have h2' : ¬(b.memory.salience < c.memory.salience ∨
      (c.memory.salience = b.memory.salience ∧
        b.memory.lastAccessed < c.memory.lastAccessed)) :=
    fun hx => h2 (sqlLt_iff.mpr hx)
  push_neg at h2'
  rw [sqlLt_iff] at h1 ⊢
  rcases h1 with h1 | ⟨he, hl⟩
  · exact Or.inl (lt_of_le_of_lt h2'.1 h1)
  · rcases lt_or_eq_of_le h2'.1 with hc | hc
    · exact Or.inl (he ▸ hc)
    · refine Or.inr ⟨he.trans hc.symm, ?_⟩
      have := h2'.2 hc
      omega

theorem relLt_asymm (a b : SearchResult) (h : relLt a b = true) : relLt b a = false := by
  simp only [relLt, decide_eq_true_eq] at h
  simp only [relLt, decide_eq_false_iff_not]
  linarith

theorem relLt_htrans (a b c : SearchResult) (h1 : relLt a b = true)
    (h2 : relLt c b = false) : relLt a c = true := by
  simp only [relLt, decide_eq_true_eq] at h1
  simp only [relLt, decide_eq_false_iff_not] at h2
  simp only [relLt, decide_eq_true_eq]
  linarith

/-- The claimed tie-break chain at the row level: higher salience, then
more recent last-accessed, then lower id. -/
def memTieBreak (m m' : Memory) : Prop :=
  m'.salience < m.salience ∨
    (m.salience = m'.salience ∧
      (m'.lastAccessed < m.lastAccessed ∨
        (m.lastAccessed = m'.lastAccessed ∧ m.id < m'.id)))

/-- The result ordering claimed by the spec: descending relevance score
with ties broken by the `memTieBreak` chain. -/
def resultTieBreak (r r' : SearchResult) : Prop :=
  r'.relevanceScore < r.relevanceScore ∨
    (r.relevanceScore = r'.relevanceScore ∧ memTieBreak r.memory r'.memory)

theorem ltTieOrd_sqlLt_imp {c c' : Candidate}
    (h : ltTieOrd sqlLt (fun a b => a.memory.id < b.memory.id) c c') :
    memTieBreak c.memory c'.memory := by
  rcases h with h | ⟨hn, hid⟩
  · rw [sqlLt_iff] at h
    rcases h with h | ⟨he, hl⟩
    · exact Or.inl h
    · exact Or.inr ⟨he, Or.inl hl⟩
  · rw [Bool.eq_false_iff] at hn
    have hn' : ¬(c.memory.salience < c'.memory.salience ∨
        (c'.memory.salience = c.memory.salience ∧
          c.memory.lastAccessed < c'.memory.lastAccessed)) :=
      fun hx => hn (sqlLt_iff.mpr hx)
    push_neg at hn'
    rcases lt_or_eq_of_le hn'.1 with hs | hs
    · exact Or.inl hs
    · have hla := hn'.2 hs
      rcases lt_or_eq_of_le hla with hl | hl
      · exact Or.inr ⟨hs.symm, Or.inl hl⟩
      · exact Or.inr ⟨hs.symm, Or.inr ⟨hl.symm, hid⟩⟩

theorem ltTieOrd_relLt_imp {r r' : SearchResult}
    (h : ltTieOrd relLt (fun a b => memTieBreak a.memory b.memory) r r') :
    resultTieBreak r r' := by
  rcases h with h | ⟨hn, hm⟩
  · simp only [relLt, decide_eq_true_eq] at h
    exact Or.inl h
  · simp only [relLt, decide_eq_false_iff_not] at hn
    rcases lt_or_eq_of_le (not_lt.mp hn) with hr | hr
    · exact Or.inl hr
    · exact Or.inr ⟨hr.symm, hm⟩


/-- A small concrete memory used by several witnesses. -/
def wMem : Memory :=
  { id := 1, mtype := .shortTerm, category := "note", title := "Use PostgreSQL",
    content := "Decided to use PostgreSQL", project := some "p", tags := [],
    salience := 1/2, accessCount := 0, lastAccessed := 0, createdAt := 0,
    metadata := "" }

/-- A one-row concrete store used by several witnesses. -/
def wStore : Store := { rows := [wMem], nextId := 2 }

/-- C9: `addMemory` stores content whose length is exactly 10240
characters unchanged, stores longer content as its first 10240
characters followed by the visible truncation marker, and truncation
affects no other stored field (title, project, tags, salience, counter
and timestamp are computed from the raw input). -/
theorem addMemory_truncates_content (s : Store) (input : MemoryInput) (now : Nat)
    (config : MemoryConfig) :
    (input.content.length = MAX_CONTENT_SIZE →
      (addMemory s input now config).2.1.content = input.content) ∧
    (input.content.length > MAX_CONTENT_SIZE →
      (addMemory s input now config).2.1.content =
        String.mk (input.content.data.take MAX_CONTENT_SIZE) ++ truncationMarker) ∧
    (addMemory s input now config).2.1.title = input.title ∧
    (addMemory s input now config).2.1.project = input.project ∧
    (addMemory s input now config).2.1.tags = extractTags input ∧
    (addMemory s input now config).2.1.salience =
      input.salience.getD (calculateSalience input) ∧
    (addMemory s input now config).2.1.accessCount = 0 ∧
    (addMemory s input now config).2.1.lastAccessed = now := by
  refine ⟨?_, ?_, rfl, rfl, rfl, rfl, rfl, rfl⟩
  · intro h
    show truncateContent input.content = input.content
    unfold truncateContent
    have hnot : ¬ (input.content.length > MAX_CONTENT_SIZE) := by omega
    rw [if_neg hnot]
  · intro h
    show truncateContent input.content = _
    unfold truncateContent
    rw [if_pos h]

/-- Content one character over the 10 KiB cap, for the C9 witness. -/
def bigContent : String := String.mk (List.replicate 10241 'a')

/-- Input carrying `bigContent`, for the C9 witness. -/
def bigInput : MemoryInput :=
  { title := "big", content := bigContent, mtype := none, category := none,
    project := none, tags := none, salience := none, metadata := none }

theorem addMemory_truncates_content_witness :
    bigContent.length > MAX_CONTENT_SIZE ∧
    (addMemory wStore bigInput 3 DEFAULT_CONFIG).2.1.content =
      String.mk (bigContent.data.take MAX_CONTENT_SIZE) ++ truncationMarker := by
  have hlen : bigContent.length > MAX_CONTENT_SIZE := by
    show (List.replicate 10241 'a').length > 10 * 1024
    rw [List.length_replicate]
    norm_num
  exact ⟨hlen, (addMemory_truncates_content wStore bigInput 3 DEFAULT_CONFIG).2.1 hlen⟩

/-- C10: `updateMemory` with a patch in which no updatable field is
defined returns the stored memory unchanged, performs no store write
and publishes no event; for a missing id it returns null and publishes
nothing. -/
theorem updateMemory_empty_patch (s : Store) (id : Nat) (p : MemoryPatch)
    (hp : p.hasField = false) :
    updateMemory s id p = (s, getMemoryById s id, []) := by
  unfold updateMemory
  cases h : getMemoryById s id with
  | none => rfl
  | some m => simp [hp]

theorem updateMemory_empty_patch_witness :
    MemoryPatch.empty.hasField = false ∧
    updateMemory wStore 1 MemoryPatch.empty = (wStore, getMemoryById wStore 1, []) :=
  ⟨rfl, updateMemory_empty_patch wStore 1 MemoryPatch.empty rfl⟩

/-- The row written by `accessMemory` for the accessed memory. -/
def reinforcedRow (m : Memory) (now : Nat) : Memory :=
  { m with accessCount := m.accessCount + 1
           lastAccessed := now
           salience := calculateReinforcementBoost m }

/-- C3: for an existing id, `accessMemory` increments access_count by
exactly one, stamps last_accessed with the current time, stores a
reinforced salience that never decreases (and stays at most 1), updates
the stored row accordingly and emits `memory_accessed`; for a missing
id it returns null and changes nothing. -/
theorem accessMemory_spec (s : Store) (id now : Nat) :
    (∀ m, getMemoryById s id = some m → m.salience ≤ 1 →
      ∃ m', (accessMemory s id now).2.1 = some m' ∧
        m'.accessCount = m.accessCount + 1 ∧
        m'.lastAccessed = now ∧
        m.salience ≤ m'.salience ∧
        m'.salience ≤ 1 ∧
        getMemoryById (accessMemory s id now).1 id = some m' ∧
        (accessMemory s id now).2.2 = [MemoryEvent.accessed m' m'.salience]) ∧
    (getMemoryById s id = none → accessMemory s id now = (s, none, [])) := by
  constructor
  · intro m hm hs1
    have hmid : m.id = id := by
      have := List.find?_some hm
      simpa using this
    have hboost : m.salience ≤ calculateReinforcementBoost m ∧
        calculateReinforcementBoost m ≤ 1 := by
      unfold calculateReinforcementBoost
      constructor
      · refine le_min hs1 ?_
        have hb : (0:ℚ) ≤ reinforcementBase m.mtype / ((m.accessCount : ℚ) + 1) := by
          apply div_nonneg
          · cases m.mtype <;> norm_num [reinforcementBase]
          · positivity
        linarith
      · exact min_le_left _ _
    have hA : accessMemory s id now =
        ({ s with rows := s.rows.map (fun r =>
            if r.id = id then
              { r with accessCount := r.accessCount + 1
                       lastAccessed := now
                       salience := calculateReinforcementBoost m }
            else r) },
         some (reinforcedRow m now),
         [MemoryEvent.accessed (reinforcedRow m now) (calculateReinforcementBoost m)]) := by
      unfold accessMemory
      rw [hm]
      simp [hmid, reinforcedRow]
    refine ⟨reinforcedRow m now, by rw [hA], rfl, rfl, hboost.1, hboost.2, ?_,
      by rw [hA]; rfl⟩
    rw [hA]
    show (s.rows.map _).find? _ = _
    rw [find?_map_pres (by
      intro x
      by_cases hx : x.id = id <;> simp [hx])]
    rw [show s.rows.find? (fun r => decide (r.id = id)) = some m from hm]
    simp [hmid, reinforcedRow]
  · intro h
    unfold accessMemory
    rw [h]

theorem accessMemory_spec_witness :
    (getMemoryById wStore 1 = some wMem ∧ wMem.salience ≤ 1) ∧
    (∃ m', (accessMemory wStore 1 7).2.1 = some m' ∧
      m'.accessCount = wMem.accessCount + 1 ∧
      m'.lastAccessed = 7 ∧
      wMem.salience ≤ m'.salience ∧
      m'.salience ≤ 1 ∧
      getMemoryById (accessMemory wStore 1 7).1 1 = some m' ∧
      (accessMemory wStore 1 7).2.2 = [MemoryEvent.accessed m' m'.salience]) :=
  ⟨⟨by decide, by decide⟩,
   (accessMemory_spec wStore 1 7).1 wMem (by decide) (by decide)⟩

/-- A patch defining only the title, used against claim C5. -/
def patchTitle : MemoryPatch :=
  { MemoryPatch.empty with title := some "Use SQLite" }

/-- C5 counterexample: mutating a stored memory through `updateMemory`
with a non-empty patch at mutation time 5 leaves the stored
lastAccessed at its old value 0; the source statement updates only the
patched columns and never touches last_accessed. -/
theorem updateMemory_lastAccessed_cex :
    ((updateMemory wStore 1 patchTitle).2.1).map Memory.lastAccessed = some 0 ∧
    ¬ ((updateMemory wStore 1 patchTitle).2.1).map Memory.lastAccessed = some 5 := by
  decide

/-- C5 (amended): `accessMemory` stamps lastAccessed with the mutation
time, while `updateMemory` leaves every row's lastAccessed and
createdAt unchanged (it does not set lastAccessed to the mutation
time); the invariant lastAccessed ≥ createdAt is nonetheless preserved
by both, the latter vacuously and the former for any clock not
preceding creation times. -/
theorem mutations_preserve_lastAccessed_invariant (s : Store) (id now : Nat)
    (p : MemoryPatch)
    (hinv : ∀ m ∈ s.rows, m.createdAt ≤ m.lastAccessed)
    (hclock : ∀ m ∈ s.rows, m.createdAt ≤ now) :
    (∀ m' ∈ (updateMemory s id p).1.rows,
       m'.createdAt ≤ m'.lastAccessed ∧
       ∃ m ∈ s.rows, m'.lastAccessed = m.lastAccessed ∧ m'.createdAt = m.createdAt) ∧
    (∀ m' ∈ (accessMemory s id now).1.rows, m'.createdAt ≤ m'.lastAccessed) := by
  have hpatch : ∀ r : Memory,
      (if r.id = id then applyPatch p r else r).lastAccessed = r.lastAccessed ∧
      (if r.id = id then applyPatch p r else r).createdAt = r.createdAt := by
    intro r
    by_cases hid : r.id = id <;> simp [hid, applyPatch]
  constructor
  · intro m' hm'
    unfold updateMemory at hm'
    cases h : getMemoryById s id with
    | none =>
      rw [h] at hm'
      exact ⟨hinv m' hm', m', hm', rfl, rfl⟩
    | some m0 =>
      rw [h] at hm'
      by_cases hf : p.hasField
      · simp only [hf, if_true] at hm'
        rcases List.mem_map.mp hm' with ⟨r, hr, rfl⟩
        obtain ⟨h1, h2⟩ := hpatch r
        refine ⟨?_, r, hr, h1, h2⟩
        rw [h1, h2]
        exact hinv r hr
      · simp only [hf, if_false] at hm'
        exact ⟨hinv m' hm', m', hm', rfl, rfl⟩
  · intro m' hm'
    unfold accessMemory at hm'
    cases h : getMemoryById s id with
    | none =>
      rw [h] at hm'
      exact hinv m' hm'
    | some m0 =>
      rw [h] at hm'
      simp only at hm'
      rcases List.mem_map.mp hm' with ⟨r, hr, rfl⟩
      by_cases hid : r.id = id
      · simp only [hid, if_true]
        exact hclock r hr
      · simp only [hid, if_false]
        exact hinv r hr

theorem mutations_preserve_lastAccessed_invariant_witness :
    ((∀ m ∈ wStore.rows, m.createdAt ≤ m.lastAccessed) ∧
     (∀ m ∈ wStore.rows, m.createdAt ≤ 5)) ∧
    ((∀ m' ∈ (updateMemory wStore 1 patchTitle).1.rows,
        m'.createdAt ≤ m'.lastAccessed ∧
        ∃ m ∈ wStore.rows, m'.lastAccessed = m.lastAccessed ∧
          m'.createdAt = m.createdAt) ∧
     (∀ m' ∈ (accessMemory wStore 1 5).1.rows, m'.createdAt ≤ m'.lastAccessed)) :=
  ⟨⟨by decide, by decide⟩,
   mutations_preserve_lastAccessed_invariant wStore 1 5 patchTitle
     (by decide) (by decide)⟩

/-- C6: while the control state is paused, the guarded `add()` and
`consolidate()` entry points return the recognizable "paused" error,
leave the store completely unchanged and publish no event, while reads
(`getMemoryById`, `searchMemories`) on the untouched store behave
exactly as when not paused. -/
theorem paused_blocks_writes (c : ControlState) (s : Store) (input : MemoryInput)
    (now : Nat) (id : Nat) (rank : Nat → Option ℚ) (o : SearchOptions)
    (config : MemoryConfig) (hp : isPaused c = true) :
    addGuarded c s input now = (s, Except.error "paused", []) ∧
    consolidateGuarded c s = (s, Except.error "paused", []) ∧
    getMemoryById (addGuarded c s input now).1 id = getMemoryById s id ∧
    searchMemories rank (consolidateGuarded c s).1 o now config =
      searchMemories rank s o now config := by
  refine ⟨?_, ?_, ?_, ?_⟩ <;> simp [addGuarded, consolidateGuarded, hp]

theorem paused_blocks_writes_witness :
    isPaused { paused := true } = true ∧
    (addGuarded { paused := true } wStore bigInput 0 =
        (wStore, Except.error "paused", []) ∧
      consolidateGuarded { paused := true } wStore =
        (wStore, Except.error "paused", []) ∧
      getMemoryById (addGuarded { paused := true } wStore bigInput 0).1 1 =
        getMemoryById wStore 1 ∧
      searchMemories (fun _ => none) (consolidateGuarded { paused := true } wStore).1
          { query := none, project := none, category := none, mtype := none,
            minSalience := none, tags := none, includeDecayed := false,
            limit := none } 0 DEFAULT_CONFIG =
        searchMemories (fun _ => none) wStore
          { query := none, project := none, category := none, mtype := none,
            minSalience := none, tags := none, includeDecayed := false,
            limit := none } 0 DEFAULT_CONFIG) :=
  ⟨rfl, paused_blocks_writes { paused := true } wStore bigInput 0 1 (fun _ => none)
    { query := none, project := none, category := none, mtype := none,
      minSalience := none, tags := none, includeDecayed := false, limit := none }
    DEFAULT_CONFIG rfl⟩

/-- C8: `resolveEntity` implements exactly the five-step cascade the
spec describes (`resolveEntitySpec`, written from the claim's words):
exact match, case-insensitive match, alias match appending the
incoming casing, fuzzy Levenshtein-≤-2 match among same-type candidates
with name length within ±2 for inputs longer than 5 characters, else a
fresh insert. -/
theorem resolveEntity_follows_spec (g : GraphState) (name ty : String) :
    resolveEntity g name ty = resolveEntitySpec g name ty := by
  unfold resolveEntity resolveEntitySpec
  rw [find?_filter_eq, find?_filter_eq]
  have h1 : (fun e : Entity =>
      (e.etype == ty && fuzzyLenOk name.length e) &&
        decide (levenshteinDist (lowerStr name) (lowerStr e.name) ≤ 2)) =
      (fun e : Entity => e.etype == ty &&
        (decide (e.name.length ≤ name.length + 2) &&
         decide (name.length ≤ e.name.length + 2)) &&
        decide (levenshteinDist (lowerStr name) (lowerStr e.name) ≤ 2)) := by
    funext e
    have hsub : decide (name.length - 2 ≤ e.name.length) =
        decide (name.length ≤ e.name.length + 2) :=
      decide_eq_decide.mpr Nat.sub_le_iff_le_add
    simp only [fuzzyLenOk, hsub]
    rw [Bool.and_comm (decide (name.length ≤ e.name.length + 2))
      (decide (e.name.length ≤ name.length + 2))]
  rw [h1]

/-- The fts_norm of claim C1: |rank| / 100 clamped to [0,1]. -/
def specFtsNorm (rank : ℚ) : ℚ :=
  min 1 (max 0 (|rank| / 100))

/-- The tag/category boost of claim C1: 0.5 when the candidate matches
the requested category, plus the tag-intersection size divided by the
requested-tag count. -/
def specTagCategoryBoost (o : SearchOptions) (m : Memory) : ℚ :=
  (if o.category = some m.category then 1/2 else 0) +
    (match o.tags with
     | some ts =>
       if ts.length > 0 then
         ((ts.filter (fun t => m.tags.contains t)).length : ℚ) / (ts.length : ℚ)
       else 0
     | none => 0)

/-- The relevance formula exactly as claim C1 states it:
0.30·fts_norm + 0.30·vector_similarity + 0.25·decayed_score +
0.10·priority + 0.05·tag_category_boost. -/
def specRelevanceScore (o : SearchOptions) (m : Memory) (rank vectorSim : ℚ)
    (now : Nat) : ℚ :=
  3/10 * specFtsNorm rank + 3/10 * vectorSim +
    1/4 * calculateDecayedScore m now + 1/10 * calculatePriority m now +
    1/20 * specTagCategoryBoost o m

/-- Rank oracle giving the single witness row a bm25-scale rank of -1. -/
def wRank : Nat → Option ℚ :=
  fun i => if i = 1 then some (-1) else none

/-- A plain non-empty query with no filters. -/
def qOpts : SearchOptions :=
  { query := some "q", project := none, category := none, mtype := none,
    minSalience := none, tags := none, includeDecayed := false, limit := none }

/-- C1 counterexample: on a one-row store searched with a non-empty
query and rank -1, the code computes relevance 71/250 (from the
0.4/0.4/0.2 fusion of fts, decayed score and priority) whereas the
claimed 0.30/0.30/0.25/0.10/0.05 decomposition yields 21/125; the two
disagree, so the claimed formula does not describe the code. -/
theorem searchMemories_score_cex :
    (searchMemories wRank wStore qOpts 0 DEFAULT_CONFIG).map
        (fun r => r.relevanceScore) = [71/250] ∧
    specRelevanceScore qOpts wMem (-1) 0 0 = 21/125 ∧
    ¬ ((71 : ℚ)/250 = 21/125) := by
  decide

/-- C1 (amended): every candidate returned by a search carries the
relevance `0.4·ftsScore + 0.4·decayedScore + 0.2·priority`, where
ftsScore is |rank|/100 (unclamped, and 0.5 for a zero rank) and the
decayed score is `calculateDecayedScore` at search time; there is no
vector-similarity or tag/category term in the code's fusion. -/
theorem searchMemories_score_formula (rank : Nat → Option ℚ) (s : Store)
    (o : SearchOptions) (now : Nat) (config : MemoryConfig) (r : SearchResult)
    (hr : r ∈ searchMemories rank s o now config) :
    r.relevanceScore = ftsScore r.ftsRank * (2/5) + r.decayedScore * (2/5) +
      calculatePriority r.memory now * (1/5) ∧
    r.decayedScore = calculateDecayedScore r.memory now := by
  unfold searchMemories at hr
  rw [mem_stableSortBy] at hr
  have hr2 := (List.mem_filter.mp hr).1
  rcases List.mem_map.mp hr2 with ⟨c, _, rfl⟩
  exact ⟨rfl, rfl⟩

/-- The single result of the witness search for C1. -/
def wResult : SearchResult :=
  mkSearchResult 0 { memory := wMem, rank := -1 }

theorem searchMemories_score_formula_witness :
    wResult ∈ searchMemories wRank wStore qOpts 0 DEFAULT_CONFIG ∧
    (wResult.relevanceScore = ftsScore wResult.ftsRank * (2/5) +
        wResult.decayedScore * (2/5) +
        calculatePriority wResult.memory 0 * (1/5) ∧
      wResult.decayedScore = calculateDecayedScore wResult.memory 0) :=
  ⟨by decide,
   searchMemories_score_formula wRank wStore qOpts 0 DEFAULT_CONFIG wResult
     (by decide)⟩

/-- C4 (amended): `executeRemember` returns the existing top search hit
(same id) without touching the store exactly when that hit's relevance
exceeds 0.9; otherwise it inserts a fresh row.  An identical
{title, content, project} re-add therefore dedups only if the FTS rank
pushes the relevance above 0.9, which bm25-scale ranks do not (see the
counterexample), so a double add generally leaves two rows. -/
theorem executeRemember_dedup (rank : Nat → Option ℚ) (s : Store)
    (inp : RememberInput) (now : Nat) (r : SearchResult)
    (rest : List SearchResult)
    (hsearch : searchMemories rank s (rememberSearchOptions inp) now
      DEFAULT_CONFIG = r :: rest) :
    (r.relevanceScore > 9/10 →
      executeRemember rank s inp now =
        (s, { id := r.memory.id, deduped := true }, [])) ∧
    (¬ (r.relevanceScore > 9/10) →
      (executeRemember rank s inp now).1.rows.length = s.rows.length + 1 ∧
      (executeRemember rank s inp now).2.1.deduped = false) := by
  constructor
  · intro h
    unfold executeRemember
    rw [hsearch]
    simp [h]
  · intro h
    unfold executeRemember
    rw [hsearch]
    simp [h, addMemory]

/-- The remember-tool input of the spec's dedup scenario. -/
def dupInput : RememberInput :=
  { title := "Use PostgreSQL", content := "Decided to use PostgreSQL",
    category := none, mtype := none, project := some "p", tags := none,
    importance := none }

/-- Oracle giving the first inserted row a typical bm25-scale rank. -/
def dupRank : Nat → Option ℚ :=
  fun i => if i = 1 then some (-1) else none

/-- C4 counterexample: adding the identical {title, content, project}
twice leaves two stored rows, not one.  The duplicate's relevance
(0.4·(|rank|/100) + 0.4·decayed + 0.2·priority) stays far below the
0.9 dedup threshold for bm25-scale ranks, so the second call inserts a
second copy instead of returning the existing id. -/
theorem executeRemember_double_add_cex :
    ((executeRemember dupRank
        (executeRemember dupRank { rows := [], nextId := 1 } dupInput 0).1
        dupInput 0).1).rows.length = 2 ∧
    ¬ (((executeRemember dupRank
        (executeRemember dupRank { rows := [], nextId := 1 } dupInput 0).1
        dupInput 0).1).rows.length = 1) := by
  decide

/-- Oracle giving the witness row an extreme rank that does push the
(unclamped) fts term over the dedup threshold. -/
def bigRank : Nat → Option ℚ :=
  fun i => if i = 1 then some (-300) else none

/-- The top hit of the C4 witness search. -/
def bigResult : SearchResult :=
  mkSearchResult 0 { memory := wMem, rank := -300 }

theorem executeRemember_dedup_witness :
    (searchMemories bigRank wStore (rememberSearchOptions dupInput) 0
        DEFAULT_CONFIG = [bigResult] ∧
      bigResult.relevanceScore > 9/10) ∧
    executeRemember bigRank wStore dupInput 0 =
      (wStore, { id := bigResult.memory.id, deduped := true }, []) :=
  ⟨⟨by decide, by decide⟩,
   (executeRemember_dedup bigRank wStore dupInput 0 bigResult []
     (by decide)).1 (by decide)⟩

/-- C2 (amended): in the embedding every ingredient of `searchMemories`
is a pure function of the store, the rank oracle, the options and the
time, so the search is deterministic; its output is ordered by
relevance descending with equal scores resolved by higher salience,
then more recent last_accessed, then lower id (SQLite's table order and
JavaScript's stable sort preserve that chain).  The limit, however, is
applied to the salience/recency ordering before relevance scoring, so
the prefix property of the claim fails (see the counterexample). -/
theorem searchMemories_tiebreak (rank : Nat → Option ℚ) (s : Store)
    (o : SearchOptions) (now : Nat) (config : MemoryConfig)
    (hids : s.rows.Pairwise (fun a b => a.id < b.id)) :
    (searchMemories rank s o now config).Pairwise resultTieBreak := by
  unfold searchMemories
  have hbase : (baseCandidates rank s o).Pairwise
      (fun c c' => c.memory.id < c'.memory.id) := by
    unfold baseCandidates
    by_cases hq : o.hasQuery
    · rw [if_pos hq]
      exact List.pairwise_map.mpr (hids.filter _)
    · rw [if_neg hq]
      exact List.pairwise_map.mpr hids
  have hfil := hbase.filter (fun c => matchesFilters o c.memory)
  have hsorted := pairwise_stableSortBy sqlLt_asymm sqlLt_htrans hfil
  have htake := List.Pairwise.sublist
    (List.take_sublist (effectiveLimit o.limit)
      (stableSortBy sqlLt
        ((baseCandidates rank s o).filter (fun c => matchesFilters o c.memory))))
    hsorted
  have hmap : (((stableSortBy sqlLt
      ((baseCandidates rank s o).filter
        (fun c => matchesFilters o c.memory))).take
          (effectiveLimit o.limit)).map (mkSearchResult now)).Pairwise
      (fun r r' => memTieBreak r.memory r'.memory) :=
    List.pairwise_map.mpr (htake.imp ltTieOrd_sqlLt_imp)
  have hkept := hmap.filter
    (fun r => o.includeDecayed || decide (config.salienceThreshold ≤ r.decayedScore))
  have hfinal := pairwise_stableSortBy relLt_asymm relLt_htrans hkept
  exact hfinal.imp ltTieOrd_relLt_imp

/-- A second witness row with lower salience but a much stronger FTS
rank than `wMem`. -/
def wMem2 : Memory :=
  { id := 2, mtype := .shortTerm, category := "note", title := "B",
    content := "b", project := some "p", tags := [], salience := 2/5,
    accessCount := 0, lastAccessed := 0, createdAt := 0, metadata := "" }

/-- Two-row store used against the search-ordering claims. -/
def wStore2 : Store := { rows := [wMem, wMem2], nextId := 3 }

/-- Rank oracle: modest rank for row 1, strong rank for row 2. -/
def pfxRank : Nat → Option ℚ :=
  fun i => if i = 1 then some (-1) else if i = 2 then some (-60) else none

/-- The witness query with an explicit limit. -/
def limOpts (l : Nat) : SearchOptions :=
  { query := some "q", project := none, category := none, mtype := none,
    minSalience := none, tags := none, includeDecayed := false, limit := some l }

theorem searchMemories_tiebreak_witness :
    wStore2.rows.Pairwise (fun a b => a.id < b.id) ∧
    (searchMemories pfxRank wStore2 (limOpts 2) 0 DEFAULT_CONFIG).Pairwise
      resultTieBreak :=
  ⟨by simp [wStore2, wMem, wMem2],
   searchMemories_tiebreak pfxRank wStore2 (limOpts 2) 0 DEFAULT_CONFIG
     (by simp [wStore2, wMem, wMem2])⟩

/-- C2 counterexample: the limit is applied to the salience/recency
ordered candidate list before relevance scoring, so the limit-1 result
(the high-salience row 1) is not a prefix of the limit-2 result (which
row 2's much stronger FTS rank leads).  A list is a prefix of another
exactly when it equals the other's take of its length. -/
theorem searchMemories_prefix_cex :
    ¬ (searchMemories pfxRank wStore2 (limOpts 1) 0 DEFAULT_CONFIG =
        (searchMemories pfxRank wStore2 (limOpts 2) 0 DEFAULT_CONFIG).take
          (searchMemories pfxRank wStore2 (limOpts 1) 0 DEFAULT_CONFIG).length) := by
  decide

theorem find?_filter_of_imp {p q : α → Bool} {l : List α}
    (h : ∀ x, p x = true → q x = true) :
    (l.filter q).find? p = l.find? p := by
  induction l with
  | nil => rfl
  | cons x xs ih =>
    by_cases hq : q x
    · by_cases hp : p x
      · simp [List.filter_cons, hq, List.find?_cons, hp]
      · simp [List.filter_cons, hq, List.find?_cons, hp, ih]
    · have hp : p x = false := by
        cases hpx : p x
        · rfl
        · exact absurd (h x hpx) (by simp [hq])
      simp [List.filter_cons, hq, List.find?_cons, hp, ih]

theorem rewireId_ne (keepId removeId x : Nat) (hne : keepId ≠ removeId) :
    rewireId keepId removeId x ≠ removeId := by
  unfold rewireId
  by_cases h : x = removeId <;> simp [h, hne]

theorem mergeEntities_removes_entity (keepId removeId : Nat) (g G : GraphState)
    (h : mergeEntities keepId removeId g = some G) :
    G.entities.find? (fun e => e.id == removeId) = none := by
  unfold mergeEntities at h
  cases hk : g.entities.find? (fun e => e.id == keepId) with
  | none => rw [hk] at h; simp at h
  | some kR =>
    cases hr : g.entities.find? (fun e => e.id == removeId) with
    | none => rw [hk, hr] at h; simp at h
    | some rR =>
      rw [hk, hr] at h
      injection h with h'
      rw [← h']
      rw [List.find?_eq_none]
      intro x hx
      rcases List.mem_map.mp hx with ⟨y, hy, rfl⟩
      have hyid : ¬ (y.id = removeId) := by
        have := (List.mem_filter.mp hy).2
        simpa using this
      by_cases hyk : y.id = keepId
      · rw [if_pos hyk]
        simpa using hyid
      · rw [if_neg hyk]
        simpa using hyid

theorem runMerge_idem (keepId removeId : Nat) (g : GraphState) :
    runMerge keepId removeId (runMerge keepId removeId g) =
      runMerge keepId removeId g := by
  cases hG : mergeEntities keepId removeId g with
  | none => simp [runMerge, hG]
  | some G =>
    have h1 : runMerge keepId removeId g = G := by simp [runMerge, hG]
    rw [h1]
    have hnone := mergeEntities_removes_entity keepId removeId g G hG
    have h2 : mergeEntities keepId removeId G = none := by
      unfold mergeEntities
      rw [hnone]
      cases G.entities.find? (fun e => e.id == keepId) <;> rfl
    simp [runMerge, h2]

theorem effUpd_compose_rewireTriple (keepId removeId : Nat) (t : Triple) :
    (if ((if (t.subjectId == removeId)
            then { t with subjectId := keepId } else t).objectId == removeId)
      then { (if (t.subjectId == removeId)
              then { t with subjectId := keepId } else t) with objectId := keepId }
      else (if (t.subjectId == removeId)
              then { t with subjectId := keepId } else t)) =
    rewireTriple keepId removeId t := by
  by_cases h1 : t.subjectId = removeId <;> by_cases h2 : t.objectId = removeId <;>
    simp [h1, h2, rewireTriple, rewireId]

/-- C7 (amended): with both entities present and distinct,
`mergeEntities` succeeds; every pre-merge triple and mention remains
reachable in rewired form; the kept entity's memory_count is the sum of
both counts; its alias set is the union of both alias sets plus the
removed entity's primary name MINUS the kept entity's own primary name
(the source deletes `keepRow.name` from the merged set); the removed
row is gone; and running the merge twice leaves the same state as
running it once (the second run fails on the missing entity and rolls
back). -/
theorem mergeEntities_spec (g : GraphState) (keepId removeId : Nat)
    (kRow rRow : Entity)
    (hk : g.entities.find? (fun e => e.id == keepId) = some kRow)
    (hr : g.entities.find? (fun e => e.id == removeId) = some rRow)
    (hne : keepId ≠ removeId) :
    ∃ g', mergeEntities keepId removeId g = some g' ∧
      (∀ t ∈ g.triples, rewireTriple keepId removeId t ∈ g'.triples) ∧
      (∀ mn ∈ g.mentions, rewireMention keepId removeId mn ∈ g'.mentions) ∧
      (∃ e', g'.entities.find? (fun e => e.id == keepId) = some e' ∧
        e'.memoryCount = kRow.memoryCount + rRow.memoryCount ∧
        (∀ a, a ∈ e'.aliases ↔
          ((a ∈ kRow.aliases ∨ a ∈ rRow.aliases ∨ a = rRow.name) ∧
            ¬ a = kRow.name))) ∧
      g'.entities.find? (fun e => e.id == removeId) = none ∧
      runMerge keepId removeId (runMerge keepId removeId g) =
        runMerge keepId removeId g := by
  have hkid : kRow.id = keepId := by
    have := List.find?_some hk
    simpa using this
  unfold mergeEntities
  rw [hk, hr]
  refine ⟨_, rfl, ?_, ?_, ?_, ?_, runMerge_idem keepId removeId g⟩
  · -- triples reachability
    intro t ht
    dsimp only
    have hupdS : ∀ x : Triple,
        (({ x with subjectId := keepId } : Triple).subjectId == removeId) = false := by
      intro x
      simp only [beq_eq_false_iff_ne, ne_eq]
      exact hne
    have h1 : (if (t.subjectId == removeId) then
          ({ t with subjectId := keepId } : Triple) else t)
        ∈ orIgnorePass (fun t : Triple => t.subjectId == removeId)
          (fun t => { t with subjectId := keepId }) [] g.triples :=
      effUpd_mem_orIgnorePass hupdS ht
    have hupdO : ∀ x : Triple,
        (({ x with objectId := keepId } : Triple).objectId == removeId) = false := by
      intro x
      simp only [beq_eq_false_iff_ne, ne_eq]
      exact hne
    have h2 : (if ((if (t.subjectId == removeId) then
            ({ t with subjectId := keepId } : Triple) else t).objectId == removeId)
          then ({ (if (t.subjectId == removeId) then
              ({ t with subjectId := keepId } : Triple) else t) with
                objectId := keepId } : Triple)
          else (if (t.subjectId == removeId) then
              ({ t with subjectId := keepId } : Triple) else t))
        ∈ orIgnorePass (fun t : Triple => t.objectId == removeId)
            (fun t => { t with objectId := keepId }) []
            (orIgnorePass (fun t : Triple => t.subjectId == removeId)
              (fun t => { t with subjectId := keepId }) [] g.triples) :=
      effUpd_mem_orIgnorePass hupdO h1
    rw [effUpd_compose_rewireTriple keepId removeId t] at h2
    refine List.mem_filter.mpr ⟨h2, ?_⟩
    have hs := rewireId_ne keepId removeId t.subjectId hne
    have ho := rewireId_ne keepId removeId t.objectId hne
    simp [rewireTriple, hs, ho]
  · -- mentions reachability
    intro mn hmn
    dsimp only
    have hupdM : ∀ x : MemoryEntity,
        (({ x with entityId := keepId } : MemoryEntity).entityId == removeId) = false := by
      intro x
      simp only [beq_eq_false_iff_ne, ne_eq]
      exact hne
    have h1 : (if (mn.entityId == removeId) then
          ({ mn with entityId := keepId } : MemoryEntity) else mn)
        ∈ orIgnorePass (fun m : MemoryEntity => m.entityId == removeId)
          (fun m => { m with entityId := keepId }) [] g.mentions :=
      effUpd_mem_orIgnorePass hupdM hmn
    have heq : (if (mn.entityId == removeId) then
          ({ mn with entityId := keepId } : MemoryEntity) else mn) =
        rewireMention keepId removeId mn := by
      by_cases h : mn.entityId = removeId <;>
        simp [h, rewireMention, rewireId]
    rw [heq] at h1
    refine List.mem_filter.mpr ⟨h1, ?_⟩
    have := rewireId_ne keepId removeId mn.entityId hne
    simp [rewireMention, this]
  · -- the kept entity after the merge
    dsimp only
    refine ⟨{ kRow with
        aliases := (dedupFirst []
          (kRow.aliases ++ rRow.aliases ++ [rRow.name])).filter
            (fun a => !(a == kRow.name))
        memoryCount := kRow.memoryCount + rRow.memoryCount }, ?_, rfl, ?_⟩
    · rw [find?_map_pres (by
        intro x
        by_cases hx : x.id = keepId
        · rw [if_pos hx]
        · rw [if_neg hx])]
      rw [find?_filter_of_imp (by
        intro x hx
        have hxid : x.id = keepId := by simpa using hx
        rw [hxid]
        simp [hne])]
      rw [hk, Option.map_some']
      rw [if_pos hkid]
    · intro a
      simp only [List.mem_filter, mem_dedupFirst, List.mem_append,
        List.mem_singleton, List.not_mem_nil, not_false_eq_true, and_true,
        Bool.not_eq_eq_eq_not, Bool.not_true, beq_eq_false_iff_ne, ne_eq]
      tauto
  · -- the removed entity is gone
    dsimp only
    rw [List.find?_eq_none]
    intro x hx
    rcases List.mem_map.mp hx with ⟨y, hy, rfl⟩
    have hyid : ¬ (y.id = removeId) := by
      have := (List.mem_filter.mp hy).2
      simpa using this
    by_cases hyk : y.id = keepId
    · rw [if_pos hyk]
      simpa using hyid
    · rw [if_neg hyk]
      simpa using hyid

/-- Kept entity of the C7 counterexample: primary name "A", no aliases. -/
def cexKeep : Entity :=
  { id := 1, name := "A", etype := "t", aliases := [], memoryCount := 2 }

/-- Removed entity of the C7 counterexample: its aliases contain the
kept entity's primary name. -/
def cexRemove : Entity :=
  { id := 2, name := "B", etype := "t", aliases := ["A"], memoryCount := 3 }

/-- Graph of the C7 counterexample. -/
def cexGraph : GraphState :=
  { entities := [cexKeep, cexRemove], triples := [], mentions := [],
    nextEntityId := 3 }

/-- C7 counterexample: the claim's "union of both alias sets plus the
removed entity's primary name" contains "A" here, but the merged alias
list is ["B"] — the source deletes the kept entity's own primary name
from the merged set, so the claimed alias equation fails. -/
theorem mergeEntities_alias_cex :
    ("A" ∈ cexKeep.aliases ∨ "A" ∈ cexRemove.aliases ∨ "A" = cexRemove.name) ∧
    (mergeEntities 1 2 cexGraph).map (fun g => g.entities.map Entity.aliases) =
      some [["B"]] ∧
    ¬ ("A" ∈ (["B"] : List String)) := by
  decide

/-- Entities and graph for the C7 witness. -/
def wEntKeep : Entity :=
  { id := 1, name := "Postgres", etype := "system", aliases := ["PG"],
    memoryCount := 2 }

/-- The entity merged away in the C7 witness. -/
def wEntRemove : Entity :=
  { id := 2, name := "PostgreSQL", etype := "system", aliases := ["pgsql"],
    memoryCount := 3 }

/-- Graph of the C7 witness: one triple and one mention refer to the
removed entity. -/
def wGraph : GraphState :=
  { entities := [wEntKeep, wEntRemove],
    triples := [{ subjectId := 2, predicate := "uses", objectId := 1,
                  sourceMemoryId := 7 }],
    mentions := [{ memoryId := 7, entityId := 2, role := "mention" }],
    nextEntityId := 3 }

theorem mergeEntities_spec_witness :
    (wGraph.entities.find? (fun e => e.id == 1) = some wEntKeep ∧
      wGraph.entities.find? (fun e => e.id == 2) = some wEntRemove ∧
      (1 : Nat) ≠ 2) ∧
    (∃ g', mergeEntities 1 2 wGraph = some g' ∧
      (∀ t ∈ wGraph.triples, rewireTriple 1 2 t ∈ g'.triples) ∧
      (∀ mn ∈ wGraph.mentions, rewireMention 1 2 mn ∈ g'.mentions) ∧
      (∃ e', g'.entities.find? (fun e => e.id == 1) = some e' ∧
        e'.memoryCount = wEntKeep.memoryCount + wEntRemove.memoryCount ∧
        (∀ a, a ∈ e'.aliases ↔
          ((a ∈ wEntKeep.aliases ∨ a ∈ wEntRemove.aliases ∨
              a = wEntRemove.name) ∧ ¬ a = wEntKeep.name))) ∧
      g'.entities.find? (fun e => e.id == 2) = none ∧
      runMerge 1 2 (runMerge 1 2 wGraph) = runMerge 1 2 wGraph) :=
  ⟨⟨by decide, by decide, by decide⟩,
   mergeEntities_spec wGraph 1 2 wEntKeep wEntRemove (by decide) (by decide)
     (by decide)⟩
